import Mathlib

/-!
Verification of the dipy_web content site against its specification.

The development shallowly embeds the request handlers and the documentation
sync job of the repository:

* `website/views/tools.py` — `update_documentations`, `update_doc_informations`,
  the link rewriting inside `get_dipy_intro`, and the social/API integrations
  (`has_commit_permission`, `get_facebook_page_feed`, `get_twitter_feed`,
  `get_youtube_videos`);
* `website/views/manage_publications.py` — the bibtex intake path of
  `add_publication`, `edit_publication`, `delete_publication`,
  `highlight_publications`;
* `workshop/views.py` — the workshop `index` handler.

Persistent state (the Django ORM) is embedded as explicit stores: a list of
rows threaded through the functions.  The ORM operations used by this code
are modelled one by one:

* `Model.objects.get(...)` returns the unique matching row, raises
  `DoesNotExist` when there is none and `MultipleObjectsReturned` when there
  are several (`objectsGet` below);
* `instance.save()` updates the row carrying the instance's primary key,
  inserts the instance under a fresh key when its primary key is unset, and
  falls back to an insert when no row carries the key (`DocStore.save`);
* `instance.delete()` removes the row carrying the instance's primary key and
  clears the instance's primary key (`DocStore.delete`), as Django's collector
  does after a deletion.

Outbound HTTP calls are parameters of the embedded functions: the caller
passes the parsed response, with `none` standing for a raised connection
error.  Exceptions that the Python code lets escape are `Except.error` or a
dedicated constructor; exceptions it catches are folded into the returned
value exactly where the `try`/`except` sits in the source.
-/

/-! ## String utilities

`isPrefixL` is Python's `str.startswith`, `containsSub` is Python's
`in` substring test, and `strLower` is `str.lower`, all on character lists
of the embedded strings. -/

def isPrefixL : List Char → List Char → Bool
  | [], _ => true
  | _ :: _, [] => false
  | p :: ps, c :: cs => p == c && isPrefixL ps cs

def containsSub (pat : List Char) : List Char → Bool
  | [] => isPrefixL pat []
  | c :: cs => isPrefixL pat (c :: cs) || containsSub pat cs

def strLower (s : String) : String := String.mk (s.toList.map Char.toLower)

/-! ## ORM embedding: `DocumentationLink` and its store

`website/models.py` is not under `src/`; the record type is modelled from the
spec (§3): a `DocumentationLink` carries a version label, a URL, a display
flag, a freshness flag (`is_updated` in the views) and three cached HTML
fragments (intro, gallery, tutorial index).  `pk` is the Django primary key;
it is `none` on an instance that has not been inserted (or has just been
deleted). -/

structure DocumentationLink where
  pk : Option Nat
  version : String
  url : String
  displayed : Bool
  is_updated : Bool
  tutorials : String
  gallery : String
  intro : String
deriving Repr, DecidableEq

/-- The `DocumentationLink` table: its rows plus the next auto-increment key. -/
structure DocStore where
  rows : List DocumentationLink
  nextId : Nat
deriving Repr, DecidableEq

/-- Django `instance.save()`: update the row carrying the instance's primary
key; insert under a fresh key when the key is unset; fall back to an insert
when no row carries the key.  Returns the store and the instance (whose key
is filled in on insert). -/
def DocStore.save (s : DocStore) (d : DocumentationLink) :
    DocStore × DocumentationLink :=
  match d.pk with
  | some i =>
    if s.rows.any (fun r => r.pk == some i) then
      ({ s with rows := s.rows.map (fun r => if r.pk == some i then d else r) }, d)
    else
      ({ s with rows := s.rows ++ [d] }, d)
  | none =>
    let d2 := { d with pk := some s.nextId }
    ({ rows := s.rows ++ [d2], nextId := s.nextId + 1 }, d2)

/-- Django `instance.delete()`: remove the row carrying the instance's primary
key and clear the key on the instance (the collector sets the attribute to
`None` after deleting). -/
def DocStore.delete (s : DocStore) (d : DocumentationLink) :
    DocStore × DocumentationLink :=
  ({ s with rows := s.rows.filter (fun r => !(r.pk == d.pk)) },
   { d with pk := none })

/-- Outcome of Django `Model.objects.get(...)`. -/
inductive DjangoGet (α : Type) where
  | one (a : α)
  | missing
  | multi
deriving Repr, DecidableEq

/-- `Model.objects.get(...)`: the unique row satisfying the filter;
`DoesNotExist` (`missing`) when there is none, `MultipleObjectsReturned`
(`multi`) when there are several. -/
def objectsGet {α : Type} (p : α → Bool) (rows : List α) : DjangoGet α :=
  match rows.filter p with
  | [] => .missing
  | [a] => .one a
  | _ :: _ :: _ => .multi

/-- One entry of the GitHub contents listing used by `update_documentations`
(the `name` and `type` fields of the JSON). -/
structure RemoteContent where
  name : String
  typ : String
deriving Repr, DecidableEq

/-- Modelled from the spec: the field defaults of a freshly constructed
`DocumentationLink(version=..., url=...)` (`website/models.py` is not under
`src/`).  Per §3/§4.2 a new record's freshness flag is false; the display
flag and the cached fragments default to false/empty. -/
def newDocumentationLink (version url : String) : DocumentationLink :=
  { pk := none, version := version, url := url, displayed := false,
    is_updated := false, tutorials := "", gallery := "", intro := "" }

/-- First loop of `update_documentations` (tools.py lines 199-209): walk the
remote listing; every `dir` entry's name is collected into
`all_versions_in_github`, and a `DocumentationLink` is created for it when
`objects.get(version=...)` raises `DoesNotExist`.  A `MultipleObjectsReturned`
escapes the handler: the partial store is returned as the error. -/
def update_documentations_add (base_url : String) :
    DocStore → List RemoteContent → Except DocStore (DocStore × List String)
  | s, [] => .ok (s, [])
  | s, c :: cs =>
    if c.typ == "dir" then
      match objectsGet (fun r => r.version == c.name) s.rows with
      | .multi => .error s
      | .one _ =>
        match update_documentations_add base_url s cs with
        | .error t => .error t
        | .ok (s2, names) => .ok (s2, c.name :: names)
      | .missing =>
        let s1 := (s.save (newDocumentationLink c.name (base_url ++ c.name))).1
        match update_documentations_add base_url s1 cs with
        | .error t => .error t
        | .ok (s2, names) => .ok (s2, c.name :: names)
    else
      update_documentations_add base_url s cs

/-- Second loop of `update_documentations` (tools.py lines 213-217), iterating
over a snapshot of `DocumentationLink.objects.all()`:

    for doc in all_doc_links:
        if doc.version not in all_versions_in_github:
            doc.delete()
        doc.is_updated = False
        doc.save()

Note the `save()` runs for deleted instances too.  `_step` is one iteration
of the loop's body; the loop itself follows. -/
def update_documentations_prune_step (all_versions_in_github : List String)
    (s : DocStore) (doc : DocumentationLink) : DocStore :=
  let step :=
    if all_versions_in_github.contains doc.version then (s, doc)
    else s.delete doc
  (step.1.save { step.2 with is_updated := false }).1

def update_documentations_prune (all_versions_in_github : List String) :
    DocStore → List DocumentationLink → DocStore
  | s, [] => s
  | s, doc :: docs =>
    update_documentations_prune all_versions_in_github
      (update_documentations_prune_step all_versions_in_github s doc) docs

/-- Result of a call to `update_documentations`: on success the final store
and the ids handed to the background thread; `raised` when the
`MultipleObjectsReturned` of the first loop escapes (carrying the rows
written up to that point, since every `save` commits on its own). -/
inductive SyncResult where
  | ok (store : DocStore) (displayed_id : List Nat)
  | raised (store : DocStore)
deriving Repr, DecidableEq

def SyncResult.store : SyncResult → DocStore
  | .ok s _ => s
  | .raised s => s

def SyncResult.isOk : SyncResult → Bool
  | .ok _ _ => true
  | .raised _ => false

/-- `update_documentations` (tools.py lines 181-227).  The remote listing and
the base URL are parameters (the HTTP fetch of the listing happens before any
store access).  After the two loops, the ids of the displayed records are
computed and handed to the detached `update_doc_informations` thread; the
handler returns without waiting for it. -/
def update_documentations (remote : List RemoteContent) (base_url : String)
    (s : DocStore) : SyncResult :=
  match update_documentations_add base_url s remote with
  | .error s1 => .raised s1
  | .ok (s1, all_versions_in_github) =>
    let s2 := update_documentations_prune all_versions_in_github s1 s1.rows
    let displayed_id :=
      (s2.rows.filter (fun r => r.displayed)).filterMap (fun r => r.pk)
    .ok s2 displayed_id

/-- Body of `update_doc_informations`'s loop for one record (tools.py lines
231-242).  The three fragment fetches are parameters applied to the record's
version; a fetch returning `none` models the fetch raising, which aborts the
body with the saves performed so far kept (`false` in the result).

    doc.tutorials = get_doc_examples(doc.version)
    doc.save()
    doc.gallery = get_doc_examples_images(doc.version)
    doc.save()
    doc.intro = get_dipy_intro(doc.version)
    doc.is_updated = True
    doc.save() -/
def update_doc_one (ft fg fi : String → Option String) (s : DocStore)
    (doc : DocumentationLink) : DocStore × Bool :=
  match ft doc.version with
  | none => (s, false)
  | some tv =>
    let doc1 := { doc with tutorials := tv }
    let s1 := (s.save doc1).1
    match fg doc1.version with
    | none => (s1, false)
    | some gv =>
      let doc2 := { doc1 with gallery := gv }
      let s2 := (s1.save doc2).1
      match fi doc2.version with
      | none => (s2, false)
      | some iv =>
        let doc3 := { doc2 with intro := iv, is_updated := true }
        ((s2.save doc3).1, true)

/-- The loop of `update_doc_informations` over the selected records.  An
exception in the body (`update_doc_one` returning `false`) propagates out of
the `for`, aborting the whole pass. -/
def update_doc_informations_go (ft fg fi : String → Option String) :
    DocStore → List DocumentationLink → DocStore
  | s, [] => s
  | s, doc :: docs =>
    let step := update_doc_one ft fg fi s doc
    if step.2 then update_doc_informations_go ft fg fi step.1 docs else step.1

/-- `update_doc_informations(ids)` (tools.py lines 230-243): iterate over
`DocumentationLink.objects.filter(id__in=ids)` — the rows whose key is in
`ids`, taken as a snapshot — refreshing each in turn. -/
def update_doc_informations (ft fg fi : String → Option String)
    (ids : List Nat) (s : DocStore) : DocStore :=
  update_doc_informations_go ft fg fi s
    (s.rows.filter (fun r =>
      match r.pk with
      | some i => ids.contains i
      | none => false))

/-- The row of the store carrying primary key `i`. -/
def findRow (s : DocStore) (i : Nat) : Option DocumentationLink :=
  s.rows.find? (fun r => r.pk == some i)

/-- Version labels currently tracked by the store. -/
def DocStore.tracksVersion (s : DocStore) (v : String) : Prop :=
  ∃ r ∈ s.rows, r.version = v

/-! ## `Publication` and the publication handlers

`website/models.py` is not under `src/`; the record type is modelled from the
spec (§3): title, author string, URL, optional entry type / DOI / venue /
publisher / year / month, the raw citation text, and a highlighted flag. -/

structure Publication where
  id : Nat
  title : String
  author : String
  url : String
  entry_type : Option String
  doi : Option String
  published_in : Option String
  publisher : Option String
  year_of_publication : Option String
  month_of_publication : Option String
  bibtex : String
  is_highlighted : Bool
deriving Repr, DecidableEq

/-- A publication row with the optional fields unset, for concrete stores. -/
def mkPublication (id : Nat) (title author url bib : String) (hl : Bool) :
    Publication :=
  { id := id, title := title, author := author, url := url,
    entry_type := none, doi := none, published_in := none, publisher := none,
    year_of_publication := none, month_of_publication := none,
    bibtex := bib, is_highlighted := hl }

/-- Lookup in a parsed citation entry (`bibInfo[k]` on the dict produced by
`bibtexparser`), as an association list. -/
def assocLookup (entry : List (String × String)) (k : String) : Option String :=
  (entry.find? (fun kv => kv.fst == k)).map (fun kv => kv.snd)

/-- Python truthiness of an optional string value: a key that is absent, or
present with the empty string, is falsy. -/
def pyTruthy : Option String → Bool
  | none => false
  | some s => !(s == "")

/-- The author extraction of `add_publication`'s bibtex path
(manage_publications.py lines 54-59):

    if 'author' in bibInfo:
        authors = bibInfo['author']
    elif 'authors' in bibInfo:
        authors = bibInfo['aithors']
    else:
        authors = None

Note the fallback reads the key `'aithors'`: when `'authors'` is present but
`'aithors'` is not, the subscript raises `KeyError` (`Except.error`). -/
def bibAuthors (bibInfo : List (String × String)) : Except String (Option String) :=
  if (assocLookup bibInfo "author").isSome then
    .ok (assocLookup bibInfo "author")
  else if (assocLookup bibInfo "authors").isSome then
    match assocLookup bibInfo "aithors" with
    | some v => .ok (some v)
    | none => .error "KeyError"
  else
    .ok none

/-- The URL extraction of `add_publication`'s bibtex path (lines 61-68):
explicit `url`, then `link`, then a DOI turned into a resolver URL. -/
def bibUrl (bibInfo : List (String × String)) : Option String :=
  match assocLookup bibInfo "url" with
  | some u => some u
  | none =>
    match assocLookup bibInfo "link" with
    | some u => some u
    | none =>
      match assocLookup bibInfo "doi" with
      | some d => some ("https://doi.org/" ++ d)
      | none => none

/-- The optional-field copying of `add_publication`'s bibtex path (lines
74-87), each key independently absent-tolerant; `booktitle` overwrites
`journal` in `published_in` when both are present. -/
def bibOptionalFields (bibInfo : List (String × String)) (p : Publication) :
    Publication :=
  let p := match assocLookup bibInfo "ENTRYTYPE" with
    | some v => { p with entry_type := some v }
    | none => p
  let p := match assocLookup bibInfo "doi" with
    | some v => { p with doi := some v }
    | none => p
  let p := match assocLookup bibInfo "journal" with
    | some v => { p with published_in := some v }
    | none => p
  let p := match assocLookup bibInfo "booktitle" with
    | some v => { p with published_in := some v }
    | none => p
  let p := match assocLookup bibInfo "publisher" with
    | some v => { p with publisher := some v }
    | none => p
  let p := match assocLookup bibInfo "year" with
    | some v => { p with year_of_publication := some v }
    | none => p
  match assocLookup bibInfo "month" with
  | some v => { p with month_of_publication := some v }
  | none => p

/-- The bibtex intake path of `add_publication` (manage_publications.py lines
43-96).  `parsed` is the first entry produced by `bibtexparser.loads`, with
`none` standing for any parse failure (including no entries at all); the
maximal `try`/`except Exception` turns every raised exception into the
rendered empty form, i.e. `none`: no record is created.  `some p` means one
record `p` was inserted and the handler redirected to the dashboard. -/
def add_publication_bibtex (parsed : Option (List (String × String)))
    (bibtex_entered : String) : Option Publication :=
  match parsed with
  | none => none
  | some bibInfo =>
    let title := assocLookup bibInfo "title"
    match bibAuthors bibInfo with
    | .error _ => none
    | .ok authors =>
      let url := bibUrl bibInfo
      if pyTruthy title && pyTruthy authors && pyTruthy url then
        some (bibOptionalFields bibInfo
          { id := 0, title := title.getD "", author := authors.getD "",
            url := url.getD "", entry_type := none, doi := none,
            published_in := none, publisher := none,
            year_of_publication := none, month_of_publication := none,
            bibtex := bibtex_entered, is_highlighted := false })
      else
        none

/-- `highlight_publications`'s POST branch (manage_publications.py lines
142-153): iterate over a snapshot of `Publication.objects.all()`, set
`is_highlighted` to whether `str(p.id)` is in the submitted
`highlights[]` list, and save each instance back by its key. -/
def highlight_step (highlights : List String) (st : List Publication)
    (p : Publication) : List Publication :=
  let p2 :=
    if highlights.contains (toString p.id) then
      { p with is_highlighted := true }
    else
      { p with is_highlighted := false }
  st.map (fun r => if r.id == p2.id then p2 else r)

def highlight_publications (highlights : List String)
    (store : List Publication) : List Publication :=
  store.foldl (highlight_step highlights) store

/-- A handler's outcome: a rendered template, a redirect, an `Http404`, or an
exception that escapes the handler (a server error, not a 404 page). -/
inductive HttpResponse where
  | render (template : String)
  | redirect (location : String)
  | http404
  | unhandled (exn : String)
deriving Repr, DecidableEq

/-- `edit_publication` (manage_publications.py lines 106-126): the record
lookup is wrapped in `try ... except Exception: raise Http404`, so both
`DoesNotExist` and `MultipleObjectsReturned` become a 404 page.  `is_post`
and `form_valid` abstract the request method and the submitted form's
validity. -/
def edit_publication (pubs : List Publication) (publication_id : Nat)
    (is_post : Bool) (form_valid : Bool) : HttpResponse :=
  match objectsGet (fun p => p.id == publication_id) pubs with
  | .one _ =>
    if is_post then
      if form_valid then .redirect "/dashboard/publications/"
      else .render "website/addeditpublication.html"
    else .render "website/addeditpublication.html"
  | _ => .http404

/-- `delete_publication` (manage_publications.py lines 131-137): same guarded
lookup; on success the row is deleted and the handler redirects. -/
def delete_publication (pubs : List Publication) (publication_id : Nat) :
    HttpResponse × List Publication :=
  match objectsGet (fun p => p.id == publication_id) pubs with
  | .one p =>
    (.redirect "/dashboard/publications/",
     pubs.filter (fun q => !(q.id == p.id)))
  | _ => (.http404, pubs)

/-! ## Workshop index handler

The `Workshop` fields used by the handler (`workshop/views.py`): `slug` and
`is_published` do not appear in the (stale) `workshop/models.py` under `src/`,
so they are modelled from the spec (§3: a workshop has a publish flag and
registration-window timestamps) and the handler's own accesses; timestamps
are abstract integers. -/

structure Workshop where
  slug : String
  is_published : Bool
  registration_start_date : Int
deriving Repr, DecidableEq

/-- `workshop.views.index` (workshop/views.py lines 17-32).  The lookup
`Workshop.objects.get(slug__contains=workshop_slug)` is not guarded: a
missing workshop raises `Workshop.DoesNotExist` out of the handler.  The
`if not workshop: raise Http404()` of the source is dead code — a model
instance is always truthy — and is therefore absent from the embedding. -/
def workshop_index (workshops : List Workshop) (workshop_slug : String)
    (now : Int) : HttpResponse :=
  match objectsGet
      (fun w => containsSub workshop_slug.toList w.slug.toList) workshops with
  | .missing => .unhandled "Workshop.DoesNotExist"
  | .multi => .unhandled "Workshop.MultipleObjectsReturned"
  | .one workshop =>
    if !workshop.is_published then .http404
    else if now < workshop.registration_start_date then
      .render "workshop/comingsoon.html"
    else
      .render "workshop/index.html"

/-! ## Link rewriting inside `get_dipy_intro`

tools.py lines 366-378 walk the anchors of the two containers and rewrite
each `href`.  The per-link rewrites are embedded; note the highlights loop
tests raw containment (`'http:/' in l`) while the announcements loop tests
containment on the lowercased href. -/

/-- Per-link href rewrite of `get_dipy_intro`'s loop over the highlights
container (tools.py lines 366-370):

    if l.lower().startswith('#') or 'http:/' in l or 'https:/' in l:
        continue
    link['href'] = 'documentation/latest/' + l -/
def get_dipy_intro_highlight_href (l : String) : String :=
  if isPrefixL "#".toList (strLower l).toList
      || containsSub "http:/".toList l.toList
      || containsSub "https:/".toList l.toList then
    l
  else
    "documentation/latest/" ++ l

/-- Per-link href rewrite of `get_dipy_intro`'s loop over the announcements
container (tools.py lines 374-378), whose containment tests lowercase the
href first. -/
def get_dipy_intro_announcement_href (l : String) : String :=
  if isPrefixL "#".toList (strLower l).toList
      || containsSub "http:/".toList (strLower l).toList
      || containsSub "https:/".toList (strLower l).toList then
    l
  else
    "documentation/latest/" ++ l

/-! ## Social/API integrations (tools.py)

Each embedded integration takes the parsed response of its outbound call as a
parameter, `none` standing for `requests` raising a connection error. -/

/-- The `permissions` object of a repository in the GitHub listing. -/
structure RepoPermissions where
  admin : Bool
  push : Bool
  pull : Bool
deriving Repr, DecidableEq

/-- One repository of the `api.github.com/orgs/dipy/repos` listing. -/
structure GithubRepo where
  name : String
  permissions : RepoPermissions
deriving Repr, DecidableEq

/-- `has_commit_permission` (tools.py lines 54-78).  An empty token returns
`False` before any call; the `requests.get` has no exception handler, so a
connection error (`response = none`) propagates (`Except.error`).  Otherwise
the loop returns `True` for the first listed repository with the requested
name and all of admin/push/pull, `False` when none qualifies. -/
def has_commit_permission (access_token : String) (repository_name : String)
    (response : Option (List GithubRepo)) : Except Unit Bool :=
  if access_token == "" then
    .ok false
  else
    match response with
    | none => .error ()
    | some repos =>
      .ok (repos.any (fun repo =>
        repo.name == repository_name
          && (repo.permissions.admin && repo.permissions.push
              && repo.permissions.pull)))

/-- `get_facebook_page_feed` (tools.py lines 81-106).  The call sits in
`try ... except ConnectionError: return {}`; afterwards the `data` field is
returned when present, else `{}`.  The empty dict is modelled as `none`, a
feed as `some` of its post list. -/
def get_facebook_page_feed (response : Option (Option (List String))) :
    Option (List String) :=
  match response with
  | none => none
  | some response_json =>
    match response_json with
    | some data => some data
    | none => none

/-- `get_twitter_bearer_token` (tools.py lines 109-137): a connection error on
the token exchange yields an empty JSON, and a missing `access_token` key
yields the empty token. -/
def get_twitter_bearer_token (response : Option (List (String × String))) :
    String :=
  let response_json := match response with
    | none => []
    | some js => js
  match assocLookup response_json "access_token" with
  | some t => t
  | none => ""

/-- `get_twitter_feed` (tools.py lines 140-165): the cached env token is used
when present, else the token exchange runs; the timeline call sits in
`try ... except ConnectionError: return {}` and its JSON is returned
unchecked otherwise.  The empty dict is modelled as `[]`. -/
def get_twitter_feed (env_token : Option String)
    (token_response : Option (List (String × String)))
    (feed_response : Option (List (String × String))) :
    List (String × String) :=
  let _token := match env_token with
    | some t => t
    | none => get_twitter_bearer_token token_response
  match feed_response with
  | none => []
  | some response_json => response_json

/-- One item of the YouTube search response; `kind` is the item's `id.kind`. -/
structure YoutubeItem where
  kind : String
  payload : String
deriving Repr, DecidableEq

/-- The YouTube search JSON: whether an `error` key is present, and the
`items` field (`none` when the key is missing, in which case the subscript
raises outside any handler). -/
structure YoutubeResponse where
  hasError : Bool
  items : Option (List YoutubeItem)
deriving Repr, DecidableEq

/-- `get_youtube_videos` (tools.py lines 281-316): a missing API key returns
`{}` before any call; the call sits in `try ... except` clauses returning
`{}` on connection error or any other exception; a response with an `error`
key returns `{}`; otherwise the items of kind `youtube#video` are kept.  The
empty dict is modelled as `.ok []`; a missing `items` key raises `KeyError`
(`Except.error`). -/
def get_youtube_videos (api_key : String) (response : Option YoutubeResponse) :
    Except Unit (List YoutubeItem) :=
  if api_key == "" then
    .ok []
  else
    match response with
    | none => .ok []
    | some response_json =>
      if response_json.hasError then
        .ok []
      else
        match response_json.items with
        | none => .error ()
        | some items =>
          .ok (items.filter (fun it => it.kind == "youtube#video"))

/-! ## Well-formedness of a documentation store

A store reachable from a real database state: every row has a primary key,
keys are below the auto-increment counter and pairwise distinct, and no two
rows share a version label (versions are created at most once by the sync
job). -/

def DocStore.WF (s : DocStore) : Prop :=
  (∀ r ∈ s.rows, ∃ i, r.pk = some i ∧ i < s.nextId)
  ∧ (s.rows.map (fun r => r.pk)).Nodup
  ∧ (s.rows.map (fun r => r.version)).Nodup

instance (s : DocStore) : Decidable s.WF := by
  unfold DocStore.WF
  infer_instance

/-- The `dir` entries' names in a remote listing (`all_versions_in_github`). -/
def dirNamesOf (remote : List RemoteContent) : List String :=
  (remote.filter (fun c => c.typ == "dir")).map (fun c => c.name)

/-! ## Properties of the string utilities -/

theorem isPrefixL_iff (p s : List Char) :
    isPrefixL p s = true ↔ ∃ t, s = p ++ t := by
  induction p generalizing s with
  | nil => simp [isPrefixL]
  | cons x xs ih =>
    cases s with
    | nil => simp [isPrefixL]
    | cons c cs =>
      simp only [isPrefixL, Bool.and_eq_true, beq_iff_eq, ih,
        List.cons_append, List.cons.injEq]
      constructor
      · rintro ⟨rfl, t, rfl⟩; exact ⟨t, rfl, rfl⟩
      · rintro ⟨t, rfl, rfl⟩; exact ⟨rfl, t, rfl⟩

theorem containsSub_iff (pat s : List Char) :
    containsSub pat s = true ↔ ∃ a b, s = a ++ pat ++ b := by
  induction s with
  | nil =>
    simp only [containsSub, isPrefixL_iff]
    constructor
    · rintro ⟨t, ht⟩
      exact ⟨[], t, ht⟩
    · rintro ⟨a, b, h⟩
      rcases List.append_eq_nil.mp h.symm with ⟨h1, -⟩
      rcases List.append_eq_nil.mp h1 with ⟨-, h2⟩
      exact ⟨[], by simp [h2]⟩
  | cons c cs ih =>
    simp only [containsSub, Bool.or_eq_true, isPrefixL_iff, ih]
    constructor
    · rintro (⟨t, ht⟩ | ⟨a, b, rfl⟩)
      · exact ⟨[], t, by simp [ht]⟩
      · exact ⟨c :: a, b, by simp⟩
    · rintro ⟨a, b, hab⟩
      cases a with
      | nil => exact Or.inl ⟨b, by simpa using hab⟩
      | cons a0 as =>
        right
        simp only [List.cons_append, List.cons.injEq] at hab
        exact ⟨as, b, hab.2⟩

theorem doc_latest_prepend_ne (l : String) :
    "documentation/latest/" ++ l ≠ l := by
  intro h
  have h3 := congrArg String.length h
  rw [String.length_append] at h3
  have h4 : 0 < "documentation/latest/".length := by decide
  omega

/-! ## C6: link rewriting in `get_dipy_intro` -/

/-- Claim C6 (counterexample): the href `"a/http:/b"` starts with none of
`#`, `http:/`, `https:/`, yet both rewrite loops leave it unchanged — the
source tests substring containment, not a leading match — where the claim
demands the `documentation/latest/` leader. -/
theorem C6_startswith_counterexample :
    isPrefixL "#".toList (strLower "a/http:/b").toList = false
    ∧ isPrefixL "http:/".toList "a/http:/b".toList = false
    ∧ isPrefixL "https:/".toList "a/http:/b".toList = false
    ∧ get_dipy_intro_highlight_href "a/http:/b" = "a/http:/b"
    ∧ get_dipy_intro_announcement_href "a/http:/b" = "a/http:/b"
    ∧ "a/http:/b" ≠ "documentation/latest/" ++ "a/http:/b" := by
  decide

/-- Claim C6 (amended): a link inside the rewritten containers is left
unchanged exactly when its lowercased href starts with `#`, or its href
contains `http:/` or `https:/` as a substring (tested on the raw href in the
highlights container and on the lowercased href in the announcements
container); every other link's href gets the `documentation/latest/`
leader. -/
theorem C6_rewrite_characterization (l : String) :
    (get_dipy_intro_highlight_href l = l ↔
      ((∃ t, (strLower l).toList = "#".toList ++ t)
        ∨ (∃ a b, l.toList = a ++ "http:/".toList ++ b)
        ∨ (∃ a b, l.toList = a ++ "https:/".toList ++ b)))
    ∧ (get_dipy_intro_highlight_href l = "documentation/latest/" ++ l ↔
      ¬((∃ t, (strLower l).toList = "#".toList ++ t)
        ∨ (∃ a b, l.toList = a ++ "http:/".toList ++ b)
        ∨ (∃ a b, l.toList = a ++ "https:/".toList ++ b)))
    ∧ (get_dipy_intro_announcement_href l = l ↔
      ((∃ t, (strLower l).toList = "#".toList ++ t)
        ∨ (∃ a b, (strLower l).toList = a ++ "http:/".toList ++ b)
        ∨ (∃ a b, (strLower l).toList = a ++ "https:/".toList ++ b)))
    ∧ (get_dipy_intro_announcement_href l = "documentation/latest/" ++ l ↔
      ¬((∃ t, (strLower l).toList = "#".toList ++ t)
        ∨ (∃ a b, (strLower l).toList = a ++ "http:/".toList ++ b)
        ∨ (∃ a b, (strLower l).toList = a ++ "https:/".toList ++ b))) := by
  have keyH : ((isPrefixL "#".toList (strLower l).toList
        || containsSub "http:/".toList l.toList
        || containsSub "https:/".toList l.toList) = true) ↔
      ((∃ t, (strLower l).toList = "#".toList ++ t)
        ∨ (∃ a b, l.toList = a ++ "http:/".toList ++ b)
        ∨ (∃ a b, l.toList = a ++ "https:/".toList ++ b)) := by
    simp [Bool.or_eq_true, isPrefixL_iff, containsSub_iff, or_assoc]
  have keyA : ((isPrefixL "#".toList (strLower l).toList
        || containsSub "http:/".toList (strLower l).toList
        || containsSub "https:/".toList (strLower l).toList) = true) ↔
      ((∃ t, (strLower l).toList = "#".toList ++ t)
        ∨ (∃ a b, (strLower l).toList = a ++ "http:/".toList ++ b)
        ∨ (∃ a b, (strLower l).toList = a ++ "https:/".toList ++ b)) := by
    simp [Bool.or_eq_true, isPrefixL_iff, containsSub_iff, or_assoc]
  refine ⟨?_, ?_, ?_, ?_⟩
  · rw [get_dipy_intro_highlight_href]
    by_cases h : (isPrefixL "#".toList (strLower l).toList
        || containsSub "http:/".toList l.toList
        || containsSub "https:/".toList l.toList) = true
    · rw [if_pos h]
      exact iff_of_true rfl (keyH.mp h)
    · rw [if_neg h]
      exact iff_of_false (doc_latest_prepend_ne l) (fun hp => h (keyH.mpr hp))
  · rw [get_dipy_intro_highlight_href]
    by_cases h : (isPrefixL "#".toList (strLower l).toList
        || containsSub "http:/".toList l.toList
        || containsSub "https:/".toList l.toList) = true
    · rw [if_pos h]
      exact iff_of_false (Ne.symm (doc_latest_prepend_ne l))
        (fun hn => hn (keyH.mp h))
    · rw [if_neg h]
      exact iff_of_true rfl (fun hp => h (keyH.mpr hp))
  · rw [get_dipy_intro_announcement_href]
    by_cases h : (isPrefixL "#".toList (strLower l).toList
        || containsSub "http:/".toList (strLower l).toList
        || containsSub "https:/".toList (strLower l).toList) = true
    · rw [if_pos h]
      exact iff_of_true rfl (keyA.mp h)
    · rw [if_neg h]
      exact iff_of_false (doc_latest_prepend_ne l) (fun hp => h (keyA.mpr hp))
  · rw [get_dipy_intro_announcement_href]
    by_cases h : (isPrefixL "#".toList (strLower l).toList
        || containsSub "http:/".toList (strLower l).toList
        || containsSub "https:/".toList (strLower l).toList) = true
    · rw [if_pos h]
      exact iff_of_false (Ne.symm (doc_latest_prepend_ne l))
        (fun hn => hn (keyA.mp h))
    · rw [if_neg h]
      exact iff_of_true rfl (fun hp => h (keyA.mpr hp))

/-! ## C1: the sync example -/

/-- Claim C1 (code bug): syncing a store tracking `"1.0"` (key 1) and `"dev"`
(key 2) against a remote listing of the directories `"1.0"` and `"1.1"` does
NOT leave the store tracking exactly `["1.0", "1.1"]`: the loop deletes the
`"dev"` row but then runs the unconditional `doc.save()` on the deleted
instance, whose primary key was cleared by the delete, so the instance is
re-inserted under the fresh key 4.  The final store tracks `"1.0"`, `"1.1"`
and `"dev"`, every row with freshness false (the new `"1.1"` row included). -/
theorem C1_sync_example :
    (update_documentations [⟨"1.0", "dir"⟩, ⟨"1.1", "dir"⟩] "B/"
        ⟨[⟨some 1, "1.0", "B/1.0", true, true, "t", "g", "i"⟩,
          ⟨some 2, "dev", "B/dev", true, true, "t", "g", "i"⟩], 3⟩).isOk = true
    ∧ ((update_documentations [⟨"1.0", "dir"⟩, ⟨"1.1", "dir"⟩] "B/"
        ⟨[⟨some 1, "1.0", "B/1.0", true, true, "t", "g", "i"⟩,
          ⟨some 2, "dev", "B/dev", true, true, "t", "g", "i"⟩], 3⟩).store.rows.map
        (fun r => (r.version, r.pk, r.is_updated)))
      = [("1.0", some 1, false), ("1.1", some 3, false), ("dev", some 4, false)] := by
  decide

/-! ## C4: the misspelled `aithors` fallback -/

/-- Claim C4 (code bug): a parsed citation carrying `title`, `url` and the
author value under the accepted `authors` spelling creates NO record: the
fallback branch reads `bibInfo['aithors']`, the `KeyError` is swallowed by
the blanket `except`, and the empty form is re-rendered.  Under the `author`
spelling the record is created with that author value. -/
theorem C4_authors_keyerror :
    add_publication_bibtex
        (some [("title", "T"), ("authors", "Alice"), ("url", "U")]) "@misc" = none
    ∧ (add_publication_bibtex
        (some [("title", "T"), ("author", "Alice"), ("url", "U")]) "@misc").map
        (fun p => p.author) = some "Alice" := by
  decide

/-! ## C9: not-found handling -/

/-- Claim C9 (code bug): a publication id with no matching record yields the
`Http404` page from both the edit and the delete handler (their lookups are
wrapped in `try ... except Exception: raise Http404`), but a workshop slug
with no matching workshop escapes `workshop.views.index` as
`Workshop.DoesNotExist` — a server error, not a 404 page; the handler's
`if not workshop: raise Http404()` is dead code because `objects.get` never
returns a falsy value. -/
theorem C9_not_found :
    edit_publication [] 7 false false = .http404
    ∧ edit_publication [] 7 true true = .http404
    ∧ (delete_publication [] 7).1 = .http404
    ∧ workshop_index [] "dipy2024" 0 = .unhandled "Workshop.DoesNotExist"
    ∧ workshop_index [⟨"other-workshop", true, 10⟩] "dipy2024" 0
        = .unhandled "Workshop.DoesNotExist" := by
  decide

/-! ## C7: connection-error handling of the integrations -/

/-- Claim C7 (counterexample): with a nonempty access token, a connection
error on the GitHub repository listing propagates out of
`has_commit_permission` — the call has no exception handler — instead of the
function returning an empty/False result. -/
theorem C7_github_conn_error_propagates :
    has_commit_permission "token123" "dipy_web" none = .error () := by
  rfl

/-- Claim C7 (amended): the Facebook, Twitter and YouTube integrations absorb
a connection error into an empty result; the GitHub permission check
short-circuits to `False` only on an empty token and otherwise propagates the
connection error to its caller. -/
theorem C7_conn_error_handling (tok repo key : String) (env_token : Option String)
    (token_response : Option (List (String × String))) :
    get_facebook_page_feed none = none
    ∧ get_twitter_feed env_token token_response none = []
    ∧ (key ≠ "" → get_youtube_videos key none = .ok [])
    ∧ has_commit_permission "" repo none = .ok false
    ∧ (tok ≠ "" → has_commit_permission tok repo none = .error ()) := by
  refine ⟨rfl, rfl, ?_, rfl, ?_⟩
  · intro hk
    simp [get_youtube_videos, hk]
  · intro ht
    simp [has_commit_permission, ht]

/-- Witness for `C7_conn_error_handling` at a nonempty key and token. -/
theorem C7_conn_error_handling_witness :
    ("k" ≠ "" ∧ "t" ≠ "")
    ∧ get_youtube_videos "k" none = .ok []
    ∧ has_commit_permission "t" "dipy" none = .error () :=
  ⟨⟨by decide, by decide⟩,
   (C7_conn_error_handling "t" "dipy" "k" none none).2.2.1 (by decide),
   (C7_conn_error_handling "t" "dipy" "k" none none).2.2.2.2 (by decide)⟩

/-! ## C3: highlight toggling -/

theorem map_upd_id (p2 : Publication) (st : List Publication) :
    ((st.map (fun r => if r.id == p2.id then p2 else r)).map (fun r => r.id))
      = st.map (fun r => r.id) := by
  induction st with
  | nil => rfl
  | cons a st ih =>
    simp only [List.map_cons, ih]
    congr 1
    by_cases h : (a.id == p2.id) = true
    · rw [if_pos h]
      exact (beq_iff_eq.mp h).symm
    · rw [if_neg h]

theorem highlight_step_map_id (hs : List String) (st : List Publication)
    (p : Publication) :
    ((highlight_step hs st p).map (fun r => r.id)) = st.map (fun r => r.id) := by
  simp only [highlight_step]
  exact map_upd_id _ st

theorem highlight_fold_map_id (hs : List String) (ps : List Publication) :
    ∀ st : List Publication,
      ((List.foldl (highlight_step hs) st ps).map (fun r => r.id))
        = st.map (fun r => r.id) := by
  induction ps with
  | nil => intro st; rfl
  | cons p ps ih =>
    intro st
    rw [List.foldl_cons, ih]
    exact highlight_step_map_id hs st p

theorem highlight_fold_flag (hs : List String) (ps : List Publication) :
    ∀ st : List Publication,
      (∀ r ∈ st, (r.is_highlighted = true ↔ toString r.id ∈ hs)
          ∨ r.id ∈ ps.map (fun p => p.id)) →
      ∀ r ∈ List.foldl (highlight_step hs) st ps,
        (r.is_highlighted = true ↔ toString r.id ∈ hs) := by
  induction ps with
  | nil =>
    intro st H r hr
    rcases H r hr with h | h
    · exact h
    · simp at h
  | cons p ps ih =>
    intro st H
    rw [List.foldl_cons]
    apply ih
    intro r hr
    simp only [highlight_step] at hr
    by_cases hc : hs.contains (toString p.id) = true
    · rw [if_pos hc] at hr
      rcases List.mem_map.mp hr with ⟨r0, hr0, hupd⟩
      by_cases h0 : (r0.id == ({ p with is_highlighted := true } : Publication).id) = true
      · rw [if_pos h0] at hupd
        left
        rw [← hupd]
        exact iff_of_true rfl (List.elem_iff.mp hc)
      · rw [if_neg h0] at hupd
        rw [← hupd]
        rcases H r0 hr0 with h | h
        · exact Or.inl h
        · simp only [List.map_cons, List.mem_cons] at h
          rcases h with h | h
          · exact absurd (beq_iff_eq.mpr h) h0
          · exact Or.inr h
    · rw [if_neg hc] at hr
      rcases List.mem_map.mp hr with ⟨r0, hr0, hupd⟩
      by_cases h0 : (r0.id == ({ p with is_highlighted := false } : Publication).id) = true
      · rw [if_pos h0] at hupd
        left
        rw [← hupd]
        exact iff_of_false (by simp) (fun hm => hc (List.elem_iff.mpr hm))
      · rw [if_neg h0] at hupd
        rw [← hupd]
        rcases H r0 hr0 with h | h
        · exact Or.inl h
        · simp only [List.map_cons, List.mem_cons] at h
          rcases h with h | h
          · exact absurd (beq_iff_eq.mpr h) h0
          · exact Or.inr h

/-- Claim C3: for every set of existing publication rows and every submitted
identifier list, the POST branch of `highlight_publications` preserves the
rows' identities and sets `is_highlighted` to true for exactly the rows whose
decimal id is in the submitted list, false for every other row. -/
theorem C3_highlight_exact (highlights : List String) (store : List Publication) :
    ((highlight_publications highlights store).map (fun p => p.id)
        = store.map (fun p => p.id))
    ∧ ∀ p ∈ highlight_publications highlights store,
        (p.is_highlighted = true ↔ toString p.id ∈ highlights) := by
  constructor
  · exact highlight_fold_map_id highlights store store
  · apply highlight_fold_flag
    intro r hr
    exact Or.inr (List.mem_map.mpr ⟨r, hr, rfl⟩)

/-- Witness for `C3_highlight_exact`: submitting `["2"]` over rows 1 and 2
keeps the ids and leaves row 2 highlighted (its membership hypothesis is
discharged by evaluation). -/
theorem C3_highlight_exact_witness :
    ((highlight_publications ["2"]
        [mkPublication 1 "A" "a" "u" "b" true,
         mkPublication 2 "B" "a" "u" "b" false]).map (fun p => p.id) = [1, 2])
    ∧ (({ mkPublication 2 "B" "a" "u" "b" false with
          is_highlighted := true } : Publication).is_highlighted = true
        ↔ toString (2 : Nat) ∈ ["2"]) :=
  ⟨(C3_highlight_exact ["2"]
      [mkPublication 1 "A" "a" "u" "b" true,
       mkPublication 2 "B" "a" "u" "b" false]).1,
   (C3_highlight_exact ["2"]
      [mkPublication 1 "A" "a" "u" "b" true,
       mkPublication 2 "B" "a" "u" "b" false]).2
     { mkPublication 2 "B" "a" "u" "b" false with is_highlighted := true }
     (by decide)⟩

/-! ## C5: silent rejection of incomplete citations -/

/-- Claim C5: the bibtex intake path creates no record and re-renders the
form for an unparseable citation, and likewise when the parsed entry lacks a
title, lacks the author field under both accepted spellings, or lacks every
URL-equivalent source (`url`, `link`, `doi`) — each of the three
independently. -/
theorem C5_reject_incomplete (entry : List (String × String)) (raw : String) :
    (add_publication_bibtex none raw = none)
    ∧ (assocLookup entry "title" = none →
        add_publication_bibtex (some entry) raw = none)
    ∧ (assocLookup entry "author" = none → assocLookup entry "authors" = none →
        add_publication_bibtex (some entry) raw = none)
    ∧ (assocLookup entry "url" = none → assocLookup entry "link" = none →
        assocLookup entry "doi" = none →
        add_publication_bibtex (some entry) raw = none) := by
  refine ⟨rfl, ?_, ?_, ?_⟩
  · intro ht
    cases hA : bibAuthors entry with
    | error e => simp [add_publication_bibtex, hA]
    | ok a => simp [add_publication_bibtex, hA, ht, pyTruthy]
  · intro h1 h2
    have hA : bibAuthors entry = .ok none := by
      simp [bibAuthors, h1, h2]
    simp [add_publication_bibtex, hA, pyTruthy]
  · intro h1 h2 h3
    have hU : bibUrl entry = none := by
      simp [bibUrl, h1, h2, h3]
    cases hA : bibAuthors entry with
    | error e => simp [add_publication_bibtex, hA]
    | ok a => simp [add_publication_bibtex, hA, hU, pyTruthy]

/-- Witness for `C5_reject_incomplete`: entries concretely missing the title,
the author under both spellings, and every URL source. -/
theorem C5_reject_incomplete_witness :
    add_publication_bibtex none "x" = none
    ∧ add_publication_bibtex (some []) "x" = none
    ∧ add_publication_bibtex (some [("title", "T")]) "x" = none
    ∧ add_publication_bibtex (some [("title", "T"), ("author", "A")]) "x" = none :=
  ⟨(C5_reject_incomplete [] "x").1,
   (C5_reject_incomplete [] "x").2.1 rfl,
   (C5_reject_incomplete [("title", "T")] "x").2.2.1 rfl rfl,
   (C5_reject_incomplete [("title", "T"), ("author", "A")] "x").2.2.2 rfl rfl rfl⟩

/-! ## Row-level lemmas about `DocStore.save` -/

theorem find?_map_upd (d : DocumentationLink) (i : Nat) (h : d.pk = some i) :
    ∀ l : List DocumentationLink, l.any (fun r => r.pk == some i) = true →
      ((l.map (fun r => if r.pk == some i then d else r)).find?
        (fun r => r.pk == some i)) = some d := by
  have hdi : (d.pk == some i) = true := beq_iff_eq.mpr h
  intro l
  induction l with
  | nil => intro hAny; simp at hAny
  | cons a l ih =>
    intro hAny
    simp only [List.map_cons]
    by_cases ha : (a.pk == some i) = true
    · rw [if_pos ha, List.find?_cons, hdi]
    · have ha' : (a.pk == some i) = false := by simpa using ha
      rw [if_neg ha, List.find?_cons, ha']
      apply ih
      simpa [List.any_cons, ha'] using hAny

theorem find?_map_upd_ne (d : DocumentationLink) (m j : Nat)
    (hd : d.pk = some m) (hne : m ≠ j) :
    ∀ l : List DocumentationLink,
      ((l.map (fun r => if r.pk == some m then d else r)).find?
        (fun r => r.pk == some j)) = l.find? (fun r => r.pk == some j) := by
  have hdj : (d.pk == some j) = false := by
    rw [hd]
    exact beq_eq_false_iff_ne.mpr (fun hc => hne (Option.some.inj hc))
  intro l
  induction l with
  | nil => rfl
  | cons a l ih =>
    simp only [List.map_cons]
    by_cases ha : (a.pk == some m) = true
    · have haj : (a.pk == some j) = false := by
        rw [beq_iff_eq.mp ha]
        exact beq_eq_false_iff_ne.mpr (fun hc => hne (Option.some.inj hc))
      rw [if_pos ha, List.find?_cons, hdj, List.find?_cons, haj]
      exact ih
    · rw [if_neg ha]
      by_cases haj : (a.pk == some j) = true
      · rw [List.find?_cons, haj, List.find?_cons, haj]
      · have haj' : (a.pk == some j) = false := by simpa using haj
        rw [List.find?_cons, haj', List.find?_cons, haj']
        exact ih

theorem findRow_save_self (s : DocStore) (d : DocumentationLink) (i : Nat)
    (h : d.pk = some i) : findRow (s.save d).1 i = some d := by
  simp only [DocStore.save, h]
  by_cases hAny : s.rows.any (fun r => r.pk == some i) = true
  · rw [if_pos hAny]
    exact find?_map_upd d i h s.rows hAny
  · rw [if_neg hAny]
    show (s.rows ++ [d]).find? (fun r => r.pk == some i) = some d
    rw [List.find?_append]
    have hnone : s.rows.find? (fun r => r.pk == some i) = none := by
      rw [List.find?_eq_none]
      intro x hx hpx
      exact hAny (List.any_eq_true.mpr ⟨x, hx, hpx⟩)
    rw [hnone]
    have hdi : (d.pk == some i) = true := beq_iff_eq.mpr h
    rw [List.find?_cons, hdi]
    rfl

theorem findRow_save_ne (s : DocStore) (d : DocumentationLink) (m j : Nat)
    (hd : d.pk = some m) (hne : m ≠ j) :
    findRow (s.save d).1 j = findRow s j := by
  have hdj : (d.pk == some j) = false := by
    rw [hd]
    exact beq_eq_false_iff_ne.mpr (fun hc => hne (Option.some.inj hc))
  simp only [DocStore.save, hd]
  by_cases hAny : s.rows.any (fun r => r.pk == some m) = true
  · rw [if_pos hAny]
    exact find?_map_upd_ne d m j hd hne s.rows
  · rw [if_neg hAny]
    show (s.rows ++ [d]).find? (fun r => r.pk == some j)
        = s.rows.find? (fun r => r.pk == some j)
    rw [List.find?_append]
    have h2 : ([d].find? (fun r => r.pk == some j)) = none := by
      rw [List.find?_cons, hdj]
      rfl
    rw [h2, Option.or_none]

/-! ## C2 (part one): every row's freshness flag is cleared by the prune loop -/

theorem prune_step_rows (vs : List String) (s : DocStore)
    (doc : DocumentationLink) :
    ∀ r ∈ (update_documentations_prune_step vs s doc).rows,
      r.is_updated = false
      ∨ (r ∈ s.rows ∧ r.pk ≠ doc.pk)
      ∨ (r ∈ s.rows ∧ doc.pk = none) := by
  by_cases hc : vs.contains doc.version = true
  · simp only [update_documentations_prune_step, if_pos hc]
    cases hdp : doc.pk with
    | some i =>
      simp only [DocStore.save, hdp]
      by_cases hAny : s.rows.any (fun r => r.pk == some i) = true
      · rw [if_pos hAny]
        intro r hr
        simp only [List.mem_map] at hr
        rcases hr with ⟨r0, hr0, hupd⟩
        by_cases h0 : (r0.pk == some i) = true
        · rw [if_pos h0] at hupd
          exact Or.inl (by rw [← hupd])
        · rw [if_neg h0] at hupd
          refine Or.inr (Or.inl ⟨hupd ▸ hr0, ?_⟩)
          rw [← hupd]
          exact fun hcon => h0 (beq_iff_eq.mpr hcon)
      · rw [if_neg hAny]
        intro r hr
        simp only [List.mem_append, List.mem_singleton] at hr
        rcases hr with hr | hr
        · refine Or.inr (Or.inl ⟨hr, ?_⟩)
          intro hcon
          exact hAny (List.any_eq_true.mpr ⟨r, hr, beq_iff_eq.mpr hcon⟩)
        · exact Or.inl (by rw [hr])
    | none =>
      simp only [DocStore.save, hdp]
      intro r hr
      simp only [List.mem_append, List.mem_singleton] at hr
      rcases hr with hr | hr
      · exact Or.inr (Or.inr ⟨hr, trivial⟩)
      · exact Or.inl (by rw [hr])
  · simp only [update_documentations_prune_step, if_neg hc, DocStore.delete,
      DocStore.save]
    intro r hr
    simp only [List.mem_append, List.mem_singleton] at hr
    rcases hr with hr | hr
    · simp only [List.mem_filter] at hr
      refine Or.inr (Or.inl ⟨hr.1, ?_⟩)
      have := hr.2
      intro hcon
      simp [hcon] at this
    · exact Or.inl (by rw [hr])

theorem prune_flags_false (vs : List String) :
    ∀ (docs : List DocumentationLink) (s : DocStore),
      (∀ r ∈ s.rows, r.is_updated = false
          ∨ ∃ dd ∈ docs, dd.pk = r.pk ∧ dd.pk.isSome) →
      ∀ r ∈ (update_documentations_prune vs s docs).rows,
        r.is_updated = false := by
  intro docs
  induction docs with
  | nil =>
    intro s H r hr
    rcases H r hr with h | ⟨dd, hdd, -⟩
    · exact h
    · simp at hdd
  | cons doc docs ih =>
    intro s H
    simp only [update_documentations_prune]
    apply ih
    intro r hr
    rcases prune_step_rows vs s doc r hr with hf | ⟨hmem, hne⟩ | ⟨hmem, hnone⟩
    · exact Or.inl hf
    · rcases H r hmem with h | ⟨dd, hdd, hpkeq, hsome⟩
      · exact Or.inl h
      · rcases List.mem_cons.mp hdd with rfl | hdd2
        · exact absurd hpkeq.symm hne
        · exact Or.inr ⟨dd, hdd2, hpkeq, hsome⟩
    · rcases H r hmem with h | ⟨dd, hdd, hpkeq, hsome⟩
      · exact Or.inl h
      · rcases List.mem_cons.mp hdd with rfl | hdd2
        · rw [hnone] at hsome
          simp at hsome
        · exact Or.inr ⟨dd, hdd2, hpkeq, hsome⟩

theorem add_rows_pksome (base_url : String) :
    ∀ (cs : List RemoteContent) (s s1 : DocStore) (ns : List String),
      (∀ r ∈ s.rows, r.pk.isSome) →
      update_documentations_add base_url s cs = .ok (s1, ns) →
      ∀ r ∈ s1.rows, r.pk.isSome := by
  intro cs
  induction cs with
  | nil =>
    intro s s1 ns H heq
    simp only [update_documentations_add] at heq
    injection heq with h
    injection h with h1 h2
    exact h1 ▸ H
  | cons c cs ih =>
    intro s s1 ns H heq
    simp only [update_documentations_add] at heq
    by_cases hdir : (c.typ == "dir") = true
    · rw [if_pos hdir] at heq
      cases hget : objectsGet (fun r => r.version == c.name) s.rows with
      | multi => rw [hget] at heq; exact absurd heq (by simp)
      | one a =>
        rw [hget] at heq
        cases hrec : update_documentations_add base_url s cs with
        | error t => rw [hrec] at heq; exact absurd heq (by simp)
        | ok p =>
          rw [hrec] at heq
          obtain ⟨s2, names⟩ := p
          simp only [Except.ok.injEq, Prod.mk.injEq] at heq
          obtain ⟨h1, -⟩ := heq
          exact h1 ▸ ih s s2 names H hrec
      | missing =>
        rw [hget] at heq
        cases hrec : update_documentations_add base_url
            ((s.save (newDocumentationLink c.name (base_url ++ c.name))).1) cs with
        | error t => rw [hrec] at heq; exact absurd heq (by simp)
        | ok p =>
          rw [hrec] at heq
          obtain ⟨s2, names⟩ := p
          simp only [Except.ok.injEq, Prod.mk.injEq] at heq
          obtain ⟨h1, -⟩ := heq
          refine h1 ▸ ih _ s2 names ?_ hrec
          intro r hr
          simp only [DocStore.save, newDocumentationLink, List.mem_append,
            List.mem_singleton] at hr
          rcases hr with hr | hr
          · exact H r hr
          · rw [hr]
            rfl
    · rw [if_neg hdir] at heq
      exact ih s s1 ns H heq

/-! ## C2 and C10: freshness flag and the background refresh -/

/-- Claim C2: (1) immediately after a sync pass every stored documentation
record has its freshness flag false (assuming every pre-existing row has a
primary key, as in any real database state); (2) in the background refresh of
one record, a tutorial-fetch failure leaves the store untouched; a
gallery-fetch failure leaves the flag on `doc.is_updated`'s written value
`false` with the fetched tutorials fragment already persisted and the old
gallery and intro fragments kept; an intro-fetch failure likewise persists
tutorials and gallery only; and the flag becomes true exactly when all three
fetches succeed in sequence, with no rollback in any failure case. -/
theorem C2_freshness :
    (∀ (remote : List RemoteContent) (base_url : String) (s s2 : DocStore)
        (ids : List Nat),
      (∀ r ∈ s.rows, r.pk.isSome) →
      update_documentations remote base_url s = SyncResult.ok s2 ids →
      ∀ r ∈ s2.rows, r.is_updated = false)
    ∧ (∀ (ft fg fi : String → Option String) (s : DocStore)
        (doc : DocumentationLink) (i : Nat), doc.pk = some i →
      (ft doc.version = none →
        update_doc_one ft fg fi s doc = (s, false))
      ∧ (∀ tv, ft doc.version = some tv → fg doc.version = none →
        (update_doc_one ft fg fi s doc).2 = false
        ∧ findRow (update_doc_one ft fg fi s doc).1 i
            = some { doc with tutorials := tv })
      ∧ (∀ tv gv, ft doc.version = some tv → fg doc.version = some gv →
          fi doc.version = none →
        (update_doc_one ft fg fi s doc).2 = false
        ∧ findRow (update_doc_one ft fg fi s doc).1 i
            = some { doc with tutorials := tv, gallery := gv })
      ∧ (∀ tv gv iv, ft doc.version = some tv → fg doc.version = some gv →
          fi doc.version = some iv →
        (update_doc_one ft fg fi s doc).2 = true
        ∧ findRow (update_doc_one ft fg fi s doc).1 i
            = some { doc with tutorials := tv, gallery := gv, intro := iv, is_updated := true })) := by
  constructor
  · intro remote base_url s s2 ids hpk hrun
    unfold update_documentations at hrun
    cases hadd : update_documentations_add base_url s remote with
    | error t =>
      rw [hadd] at hrun
      exact absurd hrun (by simp)
    | ok p =>
      rw [hadd] at hrun
      obtain ⟨s1, names⟩ := p
      simp only [SyncResult.ok.injEq] at hrun
      obtain ⟨h1, -⟩ := hrun
      rw [← h1]
      apply prune_flags_false
      intro r hr
      exact Or.inr ⟨r, hr, rfl, add_rows_pksome base_url remote s s1 names hpk hadd r hr⟩
  · intro ft fg fi s doc i hpk
    refine ⟨?_, ?_, ?_, ?_⟩
    · intro h
      simp [update_doc_one, h]
    · intro tv h1 h2
      constructor
      · simp [update_doc_one, h1, h2]
      · simp only [update_doc_one, h1, h2]
        exact findRow_save_self s { doc with tutorials := tv } i hpk
    · intro tv gv h1 h2 h3
      constructor
      · simp [update_doc_one, h1, h2, h3]
      · simp only [update_doc_one, h1, h2, h3]
        exact findRow_save_self _ { doc with tutorials := tv, gallery := gv } i hpk
    · intro tv gv iv h1 h2 h3
      constructor
      · simp [update_doc_one, h1, h2, h3]
      · simp only [update_doc_one, h1, h2, h3]
        exact findRow_save_self _ { doc with tutorials := tv, gallery := gv, intro := iv, is_updated := true } i hpk

/-- Witness for `C2_freshness` at concrete inputs: a sync of the empty store
against one remote directory leaves the created row's flag false, and a
one-record refresh whose gallery fetch fails keeps the flag false with the
tutorials fragment persisted. -/
theorem C2_freshness_witness :
    ((⟨some 1, "1.0", "B/1.0", false, false, "", "", ""⟩ :
        DocumentationLink).is_updated = false)
    ∧ (update_doc_one (fun _ => some "T") (fun _ => none) (fun _ => none)
        ⟨[⟨some 1, "1.0", "u", true, false, "", "", ""⟩], 2⟩
        ⟨some 1, "1.0", "u", true, false, "", "", ""⟩).2 = false
    ∧ findRow (update_doc_one (fun _ => some "T") (fun _ => none) (fun _ => none)
        ⟨[⟨some 1, "1.0", "u", true, false, "", "", ""⟩], 2⟩
        ⟨some 1, "1.0", "u", true, false, "", "", ""⟩).1 1
      = some ⟨some 1, "1.0", "u", true, false, "T", "", ""⟩ := by
  refine ⟨?_, ?_, ?_⟩
  · exact C2_freshness.1 [⟨"1.0", "dir"⟩] "B/" ⟨[], 1⟩
      ⟨[⟨some 1, "1.0", "B/1.0", false, false, "", "", ""⟩], 2⟩ []
      (by decide) (by decide)
      ⟨some 1, "1.0", "B/1.0", false, false, "", "", ""⟩ (by decide)
  · exact ((C2_freshness.2 (fun _ => some "T") (fun _ => none) (fun _ => none)
      ⟨[⟨some 1, "1.0", "u", true, false, "", "", ""⟩], 2⟩
      ⟨some 1, "1.0", "u", true, false, "", "", ""⟩ 1 rfl).2.1 "T" rfl rfl).1
  · exact ((C2_freshness.2 (fun _ => some "T") (fun _ => none) (fun _ => none)
      ⟨[⟨some 1, "1.0", "u", true, false, "", "", ""⟩], 2⟩
      ⟨some 1, "1.0", "u", true, false, "", "", ""⟩ 1 rfl).2.1 "T" rfl rfl).2

theorem findRow_update_doc_one_ne (ft fg fi : String → Option String)
    (s : DocStore) (doc : DocumentationLink) (i j : Nat)
    (hpk : doc.pk = some i) (hne : i ≠ j) :
    findRow (update_doc_one ft fg fi s doc).1 j = findRow s j := by
  cases hft : ft doc.version with
  | none => simp [update_doc_one, hft]
  | some tv =>
    have h1 : findRow (s.save { doc with tutorials := tv }).1 j = findRow s j :=
      findRow_save_ne s _ i j hpk hne
    cases hfg : fg doc.version with
    | none =>
      simp only [update_doc_one, hft, hfg]
      exact h1
    | some gv =>
      have h2 : findRow ((s.save { doc with tutorials := tv }).1.save
          { doc with tutorials := tv, gallery := gv }).1 j
          = findRow (s.save { doc with tutorials := tv }).1 j :=
        findRow_save_ne _ _ i j hpk hne
      cases hfi : fi doc.version with
      | none =>
        simp only [update_doc_one, hft, hfg, hfi]
        rw [h2, h1]
      | some iv =>
        have h3 := findRow_save_ne ((s.save { doc with tutorials := tv }).1.save
            { doc with tutorials := tv, gallery := gv }).1
          { doc with tutorials := tv, gallery := gv, intro := iv, is_updated := true } i j hpk hne
        simp only [update_doc_one, hft, hfg, hfi]
        rw [h3, h2, h1]

/-- Claim C10 (implicit): when refreshing the first selected record raises (a
fetch fails), the whole `update_doc_informations` loop aborts: the resulting
store is exactly the store after that failed body, and every row under a
different primary key — the records later in the identifier list included —
is untouched, keeping its flag and cached fragments. -/
theorem C10_abort_loop (ft fg fi : String → Option String) (s : DocStore)
    (doc : DocumentationLink) (docs : List DocumentationLink) (i : Nat) :
    doc.pk = some i →
    (update_doc_one ft fg fi s doc).2 = false →
    update_doc_informations_go ft fg fi s (doc :: docs)
        = (update_doc_one ft fg fi s doc).1
    ∧ ∀ j, j ≠ i →
        findRow (update_doc_informations_go ft fg fi s (doc :: docs)) j
          = findRow s j := by
  intro hpk hfail
  have hgo : update_doc_informations_go ft fg fi s (doc :: docs)
      = (update_doc_one ft fg fi s doc).1 := by
    simp [update_doc_informations_go, hfail]
  refine ⟨hgo, ?_⟩
  intro j hj
  rw [hgo]
  exact findRow_update_doc_one_ne ft fg fi s doc i j hpk (fun h => hj h.symm)

/-- Witness for `C10_abort_loop`: the tutorials fetch of row 1 fails, so the
loop stops before row 2, whose lookup is unchanged. -/
theorem C10_abort_loop_witness :
    update_doc_informations_go (fun _ => none) (fun _ => none) (fun _ => none)
        ⟨[⟨some 1, "1.0", "u", true, false, "", "", ""⟩,
          ⟨some 2, "0.9", "u9", true, false, "oldT", "oldG", "oldI"⟩], 3⟩
        [⟨some 1, "1.0", "u", true, false, "", "", ""⟩,
         ⟨some 2, "0.9", "u9", true, false, "oldT", "oldG", "oldI"⟩]
      = (update_doc_one (fun _ => none) (fun _ => none) (fun _ => none)
          ⟨[⟨some 1, "1.0", "u", true, false, "", "", ""⟩,
            ⟨some 2, "0.9", "u9", true, false, "oldT", "oldG", "oldI"⟩], 3⟩
          ⟨some 1, "1.0", "u", true, false, "", "", ""⟩).1
    ∧ findRow (update_doc_informations_go (fun _ => none) (fun _ => none)
          (fun _ => none)
          ⟨[⟨some 1, "1.0", "u", true, false, "", "", ""⟩,
            ⟨some 2, "0.9", "u9", true, false, "oldT", "oldG", "oldI"⟩], 3⟩
          [⟨some 1, "1.0", "u", true, false, "", "", ""⟩,
           ⟨some 2, "0.9", "u9", true, false, "oldT", "oldG", "oldI"⟩]) 2
      = findRow ⟨[⟨some 1, "1.0", "u", true, false, "", "", ""⟩,
          ⟨some 2, "0.9", "u9", true, false, "oldT", "oldG", "oldI"⟩], 3⟩ 2 :=
  ⟨(C10_abort_loop (fun _ => none) (fun _ => none) (fun _ => none)
      ⟨[⟨some 1, "1.0", "u", true, false, "", "", ""⟩,
        ⟨some 2, "0.9", "u9", true, false, "oldT", "oldG", "oldI"⟩], 3⟩
      ⟨some 1, "1.0", "u", true, false, "", "", ""⟩
      [⟨some 2, "0.9", "u9", true, false, "oldT", "oldG", "oldI"⟩] 1
      rfl rfl).1,
   (C10_abort_loop (fun _ => none) (fun _ => none) (fun _ => none)
      ⟨[⟨some 1, "1.0", "u", true, false, "", "", ""⟩,
        ⟨some 2, "0.9", "u9", true, false, "oldT", "oldG", "oldI"⟩], 3⟩
      ⟨some 1, "1.0", "u", true, false, "", "", ""⟩
      [⟨some 2, "0.9", "u9", true, false, "oldT", "oldG", "oldI"⟩] 1
      rfl rfl).2 2 (by decide)⟩

/-! ## C8: idempotence of the documentation sync

The prune loop deletes a row and immediately re-inserts it (see C1), so it
preserves the multiset of tracked version labels; the add loop only creates
labels it does not track yet.  Together: one sync makes the tracked version
set `old ∪ remote-dirs`, and a second sync with the same listing leaves it
unchanged. -/

theorem tracksVersion_iff_mem (s : DocStore) (v : String) :
    s.tracksVersion v ↔ v ∈ s.rows.map (fun x => x.version) := by
  simp [DocStore.tracksVersion, List.mem_map]

theorem count_version_filter (w : String) :
    ∀ rows : List DocumentationLink,
      (rows.map (fun x => x.version)).count w
        = (rows.filter (fun x => x.version == w)).length := by
  intro rows
  induction rows with
  | nil => rfl
  | cons x l ih =>
    by_cases hx : (x.version == w) = true
    · have hxw : x.version = w := beq_iff_eq.mp hx
      simp [List.count_cons, List.filter_cons, hxw, ih]
    · have hxw : ¬ x.version = w := fun hc => hx (beq_iff_eq.mpr hc)
      have hwx : ¬ w = x.version := fun hc => hxw hc.symm
      simp [List.count_cons, List.filter_cons, hx, hxw, hwx, ih]

theorem filter_pk_eq_singleton :
    ∀ (l : List DocumentationLink) (r : DocumentationLink) (i : Nat),
      ((l.map (fun x => x.pk)).Nodup) → r ∈ l → r.pk = some i →
      l.filter (fun x => x.pk == some i) = [r] := by
  intro l
  induction l with
  | nil => intro r i _ hr; cases hr
  | cons a l ih =>
    intro r i hnd hr hpk
    simp only [List.map_cons, List.nodup_cons] at hnd
    rcases List.mem_cons.mp hr with rfl | hr2
    · rw [List.filter_cons, if_pos (beq_iff_eq.mpr hpk)]
      have hnil : l.filter (fun x => x.pk == some i) = [] := by
        rw [List.filter_eq_nil_iff]
        intro x hx hpx
        exact hnd.1 (by
          rw [hpk, ← beq_iff_eq.mp hpx]
          exact List.mem_map_of_mem (fun y => y.pk) hx)
      rw [hnil]
    · have hane : (a.pk == some i) = false := by
        cases hb : (a.pk == some i) with
        | false => rfl
        | true =>
          exfalso
          apply hnd.1
          rw [beq_iff_eq.mp hb, ← hpk]
          exact List.mem_map_of_mem (fun y => y.pk) hr2
      rw [List.filter_cons, if_neg (by simp [hane])]
      exact ih r i hnd.2 hr2 hpk

theorem count_version_split (l : List DocumentationLink) (r : DocumentationLink)
    (i : Nat) (hnd : (l.map (fun x => x.pk)).Nodup) (hr : r ∈ l)
    (hpk : r.pk = some i) (v : String) :
    (l.map (fun x => x.version)).count v
      = ((l.filter (fun x => !(x.pk == some i))).map (fun x => x.version)).count v
        + (if r.version = v then 1 else 0) := by
  have hperm := List.filter_append_perm (fun x => x.pk == some i) l
  have hcnt := (hperm.map (fun x => x.version)).count_eq v
  rw [← hcnt, List.map_append, List.count_append,
    filter_pk_eq_singleton l r i hnd hr hpk]
  have hsing : (([r].map (fun x => x.version)).count v)
      = if r.version = v then 1 else 0 := by
    by_cases hv : r.version = v
    · simp [List.count_cons, hv]
    · have hv' : ¬ v = r.version := fun hc => hv hc.symm
      simp [List.count_cons, hv, hv']
  rw [hsing]
  omega

theorem map_version_upd (l : List DocumentationLink) (r d2 : DocumentationLink)
    (i : Nat) (hnd : (l.map (fun x => x.pk)).Nodup) (hr : r ∈ l)
    (hpk : r.pk = some i) (hv : d2.version = r.version) :
    (l.map (fun x => if x.pk == some i then d2 else x)).map (fun x => x.version)
      = l.map (fun x => x.version) := by
  rw [List.map_map]
  apply List.map_congr_left
  intro x hx
  by_cases hxp : (x.pk == some i) = true
  · have hxr : x = r :=
      List.inj_on_of_nodup_map hnd hx hr (by rw [beq_iff_eq.mp hxp, hpk])
    simp [Function.comp, hxp, hv, hxr, hpk]
  · simp [Function.comp, hxp]

theorem prune_step_spec (vs : List String) (s : DocStore)
    (doc : DocumentationLink) (i : Nat)
    (hbound : ∀ r ∈ s.rows, ∃ k, r.pk = some k ∧ k < s.nextId)
    (hnd : (s.rows.map (fun x => x.pk)).Nodup)
    (hpk : doc.pk = some i) (hi : i < s.nextId)
    (hrow : ∃ r ∈ s.rows, r.pk = some i ∧ r.version = doc.version) :
    (∀ r ∈ (update_documentations_prune_step vs s doc).rows,
        ∃ k, r.pk = some k
          ∧ k < (update_documentations_prune_step vs s doc).nextId)
    ∧ (((update_documentations_prune_step vs s doc).rows.map
        (fun x => x.pk)).Nodup)
    ∧ s.nextId ≤ (update_documentations_prune_step vs s doc).nextId
    ∧ (∀ v, ((update_documentations_prune_step vs s doc).rows.map
          (fun x => x.version)).count v
        = (s.rows.map (fun x => x.version)).count v)
    ∧ (∀ r ∈ s.rows, r.pk ≠ some i →
        r ∈ (update_documentations_prune_step vs s doc).rows) := by
  obtain ⟨r, hrmem, hrpk, hrv⟩ := hrow
  by_cases hc : vs.contains doc.version = true
  · have hAny : s.rows.any (fun x => x.pk == some i) = true :=
      List.any_eq_true.mpr ⟨r, hrmem, beq_iff_eq.mpr hrpk⟩
    have hstep : update_documentations_prune_step vs s doc
        = { s with rows := s.rows.map (fun x =>
            if x.pk == some i then { doc with is_updated := false } else x) } := by
      simp only [update_documentations_prune_step, if_pos hc, DocStore.save,
        hpk, if_pos hAny]
    rw [hstep]
    refine ⟨?_, ?_, le_refl _, ?_, ?_⟩
    · intro r' hr'
      rcases List.mem_map.mp hr' with ⟨x, hx, hupd⟩
      by_cases hxp : (x.pk == some i) = true
      · rw [if_pos hxp] at hupd
        exact ⟨i, by rw [← hupd]; exact hpk, hi⟩
      · rw [if_neg hxp] at hupd
        rw [← hupd]
        exact hbound x hx
    · have hmpk : (s.rows.map (fun x =>
          if x.pk == some i then { doc with is_updated := false } else x)).map
            (fun x => x.pk) = s.rows.map (fun x => x.pk) := by
        rw [List.map_map]
        apply List.map_congr_left
        intro x hx
        by_cases hxp : (x.pk == some i) = true
        · simp only [Function.comp, if_pos hxp]
          rw [beq_iff_eq.mp hxp]
          exact hpk
        · simp only [Function.comp, if_neg hxp]
      rw [hmpk]
      exact hnd
    · intro v
      rw [map_version_upd s.rows r { doc with is_updated := false } i hnd
        hrmem hrpk hrv.symm]
    · intro r' hmem hne
      apply List.mem_map.mpr
      refine ⟨r', hmem, ?_⟩
      have hb : (r'.pk == some i) = false := by
        cases hb2 : (r'.pk == some i) with
        | false => rfl
        | true => exact absurd (beq_iff_eq.mp hb2) hne
      rw [hb]
      simp
  · have hstep : update_documentations_prune_step vs s doc
        = { rows := (s.rows.filter (fun x => !(x.pk == some i)))
              ++ [{ doc with pk := some s.nextId, is_updated := false }],
            nextId := s.nextId + 1 } := by
      simp only [update_documentations_prune_step, if_neg hc, DocStore.delete,
        DocStore.save, hpk]
    rw [hstep]
    refine ⟨?_, ?_, Nat.le_succ _, ?_, ?_⟩
    · intro r' hr'
      rcases List.mem_append.mp hr' with hr2 | hr2
      · rcases hbound r' (List.mem_of_mem_filter hr2) with ⟨k, hk1, hk2⟩
        exact ⟨k, hk1, Nat.lt_succ_of_lt hk2⟩
      · rw [List.mem_singleton.mp hr2]
        exact ⟨s.nextId, rfl, Nat.lt_succ_self _⟩
    · rw [List.map_append]
      apply ((List.perm_append_singleton _ _).nodup_iff).mpr
      rw [List.nodup_cons]
      constructor
      · intro hmem
        rcases List.mem_map.mp hmem with ⟨x, hx, hxpk⟩
        rcases hbound x (List.mem_of_mem_filter hx) with ⟨k, hk1, hk2⟩
        rw [hk1] at hxpk
        exact absurd (Option.some.inj hxpk) (Nat.ne_of_lt hk2)
      · exact hnd.sublist ((List.filter_sublist s.rows).map (fun x => x.pk))
    · intro v
      rw [List.map_append, List.count_append,
        count_version_split s.rows r i hnd hrmem hrpk v]
      have hsing2 : (([({ doc with pk := some s.nextId, is_updated := false } :
          DocumentationLink)].map (fun x => x.version)).count v)
          = if r.version = v then 1 else 0 := by
        have hrfl : (([({ doc with pk := some s.nextId, is_updated := false } :
            DocumentationLink)].map (fun x => x.version)).count v)
            = ([doc.version].count v) := rfl
        rw [hrfl, ← hrv]
        by_cases hv : r.version = v
        · simp [List.count_cons, hv]
        · have hv2 : ¬ v = r.version := fun hcc => hv hcc.symm
          simp [List.count_cons, hv, hv2]
      rw [hsing2]
    · intro r' hmem hne
      apply List.mem_append_left
      rw [List.mem_filter]
      refine ⟨hmem, ?_⟩
      cases hb2 : (r'.pk == some i) with
      | false => rfl
      | true => exact absurd (beq_iff_eq.mp hb2) hne

theorem prune_go_spec (vs : List String) :
    ∀ (ds : List DocumentationLink) (s : DocStore),
      (∀ r ∈ s.rows, ∃ k, r.pk = some k ∧ k < s.nextId) →
      ((s.rows.map (fun x => x.pk)).Nodup) →
      ((ds.map (fun d => d.pk)).Nodup) →
      (∀ d ∈ ds, ∃ i, d.pk = some i ∧ i < s.nextId
          ∧ ∃ r ∈ s.rows, r.pk = some i ∧ r.version = d.version) →
      (∀ r ∈ (update_documentations_prune vs s ds).rows,
          ∃ k, r.pk = some k
            ∧ k < (update_documentations_prune vs s ds).nextId)
      ∧ (((update_documentations_prune vs s ds).rows.map
          (fun x => x.pk)).Nodup)
      ∧ s.nextId ≤ (update_documentations_prune vs s ds).nextId
      ∧ ∀ v, ((update_documentations_prune vs s ds).rows.map
            (fun x => x.version)).count v
          = (s.rows.map (fun x => x.version)).count v := by
  intro ds
  induction ds with
  | nil =>
    intro s hbound hnd _ _
    exact ⟨hbound, hnd, le_refl _, fun v => rfl⟩
  | cons doc ds ih =>
    intro s hbound hnd hdsnd hsnap
    obtain ⟨i, hpk, hi, hrow⟩ := hsnap doc (List.mem_cons_self doc ds)
    obtain ⟨hbound2, hnd2, hle2, hcnt2, hkeep2⟩ :=
      prune_step_spec vs s doc i hbound hnd hpk hi hrow
    simp only [List.map_cons, List.nodup_cons] at hdsnd
    have hih := ih (update_documentations_prune_step vs s doc) hbound2 hnd2
      hdsnd.2 ?_
    · simp only [update_documentations_prune]
      refine ⟨hih.1, hih.2.1, le_trans hle2 hih.2.2.1, ?_⟩
      intro v
      rw [hih.2.2.2 v, hcnt2 v]
    · intro dd hdd
      obtain ⟨i2, hpk2, hi2, r2, hr2mem, hr2pk, hr2v⟩ := hsnap dd (List.mem_cons_of_mem doc hdd)
      refine ⟨i2, hpk2, lt_of_lt_of_le hi2 hle2, r2, ?_, hr2pk, hr2v⟩
      apply hkeep2 r2 hr2mem
      rw [hr2pk]
      intro hcon
      apply hdsnd.1
      rw [hpk, ← hcon, ← hpk2]
      exact List.mem_map_of_mem (fun d => d.pk) hdd

theorem add_spec (base_url : String) :
    ∀ (cs : List RemoteContent) (s : DocStore), s.WF →
      ∃ s1 ns, update_documentations_add base_url s cs = .ok (s1, ns)
        ∧ s1.WF
        ∧ s.nextId ≤ s1.nextId
        ∧ ∀ v, (v ∈ s1.rows.map (fun x => x.version)
            ↔ (v ∈ s.rows.map (fun x => x.version) ∨ v ∈ dirNamesOf cs)) := by
  intro cs
  induction cs with
  | nil =>
    intro s hWF
    exact ⟨s, [], rfl, hWF, le_refl _, fun v => by simp [dirNamesOf]⟩
  | cons c cs ih =>
    intro s hWF
    by_cases hdir : (c.typ == "dir") = true
    · have hdirn : dirNamesOf (c :: cs) = c.name :: dirNamesOf cs := by
        simp [dirNamesOf, List.filter_cons, hdir]
      cases hfil : s.rows.filter (fun r => r.version == c.name) with
      | nil =>
        have hget : objectsGet (fun r => r.version == c.name) s.rows
            = DjangoGet.missing := by
          unfold objectsGet
          rw [hfil]
        have hnotin : c.name ∉ s.rows.map (fun x => x.version) := by
          intro hmem
          rcases List.mem_map.mp hmem with ⟨x, hx, hxv⟩
          have hxf : x ∈ s.rows.filter (fun r => r.version == c.name) :=
            List.mem_filter.mpr ⟨hx, beq_iff_eq.mpr hxv⟩
          rw [hfil] at hxf
          cases hxf
        have hWF' : ((s.save (newDocumentationLink c.name
            (base_url ++ c.name))).1).WF := by
          refine ⟨?_, ?_, ?_⟩
          · intro r' hr'
            rcases List.mem_append.mp hr' with h | h
            · rcases hWF.1 r' h with ⟨k, hk1, hk2⟩
              exact ⟨k, hk1, Nat.lt_succ_of_lt hk2⟩
            · rw [List.mem_singleton.mp h]
              exact ⟨s.nextId, rfl, Nat.lt_succ_self _⟩
          · show ((s.rows ++ [_]).map (fun (x : DocumentationLink) => x.pk)).Nodup
            rw [List.map_append]
            apply ((List.perm_append_singleton _ _).nodup_iff).mpr
            rw [List.nodup_cons]
            refine ⟨?_, hWF.2.1⟩
            intro hmem
            rcases List.mem_map.mp hmem with ⟨x, hx, hxpk⟩
            rcases hWF.1 x hx with ⟨k, hk1, hk2⟩
            rw [hk1] at hxpk
            exact absurd (Option.some.inj hxpk) (Nat.ne_of_lt hk2)
          · show ((s.rows ++ [_]).map (fun (x : DocumentationLink) => x.version)).Nodup
            rw [List.map_append]
            apply ((List.perm_append_singleton _ _).nodup_iff).mpr
            rw [List.nodup_cons]
            exact ⟨hnotin, hWF.2.2⟩
        obtain ⟨s1, ns, heq, hWF1, hle, hchar⟩ := ih _ hWF'
        refine ⟨s1, c.name :: ns, ?_, hWF1, ?_, ?_⟩
        · simp only [update_documentations_add, if_pos hdir, hget, heq]
        · exact le_trans (Nat.le_succ s.nextId) hle
        · intro v
          rw [hchar v, hdirn]
          have hmm : v ∈ ((s.save (newDocumentationLink c.name
              (base_url ++ c.name))).1.rows.map (fun x => x.version))
              ↔ (v ∈ s.rows.map (fun x => x.version) ∨ v = c.name) := by
            show v ∈ ((s.rows ++ [_]).map (fun (x : DocumentationLink) => x.version)) ↔ _
            rw [List.map_append, List.mem_append]
            simp [newDocumentationLink]
          rw [hmm]
          simp only [List.mem_cons]
          tauto
      | cons a tail =>
        cases tail with
        | nil =>
          have hget : objectsGet (fun r => r.version == c.name) s.rows
              = DjangoGet.one a := by
            unfold objectsGet
            rw [hfil]
          have hname : c.name ∈ s.rows.map (fun x => x.version) := by
            have haf : a ∈ s.rows.filter (fun r => r.version == c.name) := by
              rw [hfil]
              exact List.mem_singleton_self a
            rcases List.mem_filter.mp haf with ⟨ham, hapred⟩
            rw [← beq_iff_eq.mp hapred]
            exact List.mem_map_of_mem (fun x => x.version) ham
          obtain ⟨s1, ns, heq, hWF1, hle, hchar⟩ := ih s hWF
          refine ⟨s1, c.name :: ns, ?_, hWF1, hle, ?_⟩
          · simp only [update_documentations_add, if_pos hdir, hget, heq]
          · intro v
            rw [hchar v, hdirn]
            simp only [List.mem_cons]
            have hnamev : v = c.name → v ∈ s.rows.map (fun x => x.version) :=
              fun h => h ▸ hname
            tauto
        | cons b tail2 =>
          exfalso
          have h1 : ((s.rows.map (fun x => x.version)).count c.name) ≤ 1 :=
            (List.nodup_iff_count_le_one.mp hWF.2.2) c.name
          rw [count_version_filter c.name s.rows, hfil] at h1
          simp [List.length_cons] at h1
    · have hdirn : dirNamesOf (c :: cs) = dirNamesOf cs := by
        simp [dirNamesOf, List.filter_cons, hdir]
      obtain ⟨s1, ns, heq, hWF1, hle, hchar⟩ := ih s hWF
      refine ⟨s1, ns, ?_, hWF1, hle, ?_⟩
      · simp only [update_documentations_add, if_neg hdir]
        exact heq
      · intro v
        rw [hchar v, hdirn]

theorem sync_spec (remote : List RemoteContent) (base_url : String)
    (s : DocStore) (hWF : s.WF) :
    ∃ s2 ids, update_documentations remote base_url s = SyncResult.ok s2 ids
      ∧ s2.WF
      ∧ ∀ v, (s2.tracksVersion v
          ↔ (s.tracksVersion v ∨ v ∈ dirNamesOf remote)) := by
  obtain ⟨s1, ns, hadd, hWF1, hle, hchar⟩ := add_spec base_url remote s hWF
  have hsnap : ∀ d ∈ s1.rows, ∃ i, d.pk = some i ∧ i < s1.nextId
      ∧ ∃ r ∈ s1.rows, r.pk = some i ∧ r.version = d.version := by
    intro d hd
    rcases hWF1.1 d hd with ⟨k, hk1, hk2⟩
    exact ⟨k, hk1, hk2, d, hd, hk1, rfl⟩
  obtain ⟨hbound2, hnd2, hle2, hcnt2⟩ :=
    prune_go_spec ns s1.rows s1 hWF1.1 hWF1.2.1 hWF1.2.1 hsnap
  refine ⟨update_documentations_prune ns s1 s1.rows,
    ((update_documentations_prune ns s1 s1.rows).rows.filter
      (fun r => r.displayed)).filterMap (fun r => r.pk), ?_, ?_, ?_⟩
  · unfold update_documentations
    rw [hadd]
  · refine ⟨hbound2, hnd2, ?_⟩
    rw [List.nodup_iff_count_le_one]
    intro v
    rw [hcnt2 v]
    exact List.nodup_iff_count_le_one.mp hWF1.2.2 v
  · intro v
    rw [tracksVersion_iff_mem, tracksVersion_iff_mem]
    have hmem12 : (v ∈ (update_documentations_prune ns s1 s1.rows).rows.map
        (fun x => x.version)) ↔ (v ∈ s1.rows.map (fun x => x.version)) := by
      rw [← List.count_pos_iff, ← List.count_pos_iff, hcnt2 v]
    rw [hmem12]
    exact hchar v

/-- Claim C8: documentation sync is idempotent on the tracked version set.
From any well-formed store, one sync succeeds; a second sync against the same
remote listing also succeeds and leaves exactly the tracked version set of
the first (each sync makes the tracked set `old ∪ remote-dirs`, even though
the prune loop's delete is undone by the re-inserting save — see C1). -/
theorem C8_sync_idempotent (remote : List RemoteContent) (base_url : String)
    (s : DocStore) (hWF : s.WF) :
    ∃ s1 ids1 s2 ids2,
      update_documentations remote base_url s = SyncResult.ok s1 ids1
      ∧ update_documentations remote base_url s1 = SyncResult.ok s2 ids2
      ∧ ∀ v, (s2.tracksVersion v ↔ s1.tracksVersion v) := by
  obtain ⟨s1, ids1, h1, hWF1, hchar1⟩ := sync_spec remote base_url s hWF
  obtain ⟨s2, ids2, h2, hWF2, hchar2⟩ := sync_spec remote base_url s1 hWF1
  refine ⟨s1, ids1, s2, ids2, h1, h2, ?_⟩
  intro v
  rw [hchar2 v, hchar1 v]
  tauto

/-- Witness for `C8_sync_idempotent`: the empty store is well-formed; syncing
it twice against one remote directory gives the same one-version store both
times. -/
theorem C8_sync_idempotent_witness :
    DocStore.WF ⟨[], 1⟩
    ∧ (DocStore.tracksVersion
        ⟨[⟨some 1, "1.0", "B/1.0", false, false, "", "", ""⟩], 2⟩ "1.0"
      ↔ DocStore.tracksVersion
        ⟨[⟨some 1, "1.0", "B/1.0", false, false, "", "", ""⟩], 2⟩ "1.0") := by
  constructor
  · decide
  · obtain ⟨s1, ids1, s2, ids2, h1, h2, h3⟩ :=
      C8_sync_idempotent [⟨"1.0", "dir"⟩] "B/" ⟨[], 1⟩ (by decide)
    have e1 : SyncResult.ok s1 ids1 = SyncResult.ok
        ⟨[⟨some 1, "1.0", "B/1.0", false, false, "", "", ""⟩], 2⟩
        ([] : List Nat) := by
      rw [← h1]
      decide
    injection e1 with e1s e1i
    subst e1s
    have e2 : SyncResult.ok s2 ids2 = SyncResult.ok
        ⟨[⟨some 1, "1.0", "B/1.0", false, false, "", "", ""⟩], 2⟩
        ([] : List Nat) := by
      rw [← h2]
      decide
    injection e2 with e2s e2i
    subst e2s
    exact h3 "1.0"
